import Mathlib

/-!
Verification development for the `virtualtime` library.

The definitions below are shallow embeddings of the functions in
`virtualtime/__init__.py` and `virtualtime/alt_time_funcs.py`.  Python floats
are modelled as `ℚ` (all the concrete values involved in the claims are exact
in binary floating point, so `ℚ` arithmetic agrees with the float arithmetic
of the source on every input used here); Python's `divmod` on these values is
floor division, modelled with `Int.floor`.
-/

namespace VirtualTime

/-! ## Strftime directive repair helper (`alt_time_funcs.py`)

`adjust_strftime(dt, format_str)` scans `format_str` with the regex `%.`
(`finditer`: non-overlapping, left to right; `.` does not match a newline),
then walks the matches in reverse, splicing in replacements for the
directives `%f`, `%z` and `%Z`. -/

/-- Timezone info object as consumed by `adjust_strftime`:
`utcoffsetSecs = none` models both `utcoffset` returning `None` and it
raising `NotImplementedError`; the offset is kept in whole seconds, computed
as the source does from a timedelta via `days*24*3600 + seconds` (the
timedelta's microseconds field is ignored by the source). `name` models the
string returned by `tzname`. -/
structure TZInfo where
  utcoffsetSecs : Option ℤ
  name : String

/-- The fields of the datetime-like value that `adjust_strftime` reads:
`microsecond` (via `getattr(dt, 'microsecond', 0)`) and the optional
`tzinfo`. -/
structure AltDT where
  microsecond : ℕ
  tzinfo : Option TZInfo

/-- Decimal digits of a natural number, as Python's `%d` renders it. -/
def natDigits (n : ℕ) : List Char := (Nat.repr n).toList

/-- Left-pad with zeros to width `w`: Python's `%0wd` for a nonnegative
argument. -/
def padZero (w : ℕ) (s : List Char) : List Char :=
  List.replicate (w - s.length) '0' ++ s

/-- The `±HHMM` rendering of a UTC offset in seconds, mirroring the
`%z` branch of `adjust_strftime`:
`offset_sign, offset = ('+' if offset >= 0 else '-'), abs(offset)`;
`minutes, seconds = divmod(offset, 60)`; `hours, minutes = divmod(minutes, 60)`;
`'%c%02d%02d' % (offset_sign, hours, minutes)`. -/
def offsetRender (off : ℤ) : List Char :=
  let sign := if 0 ≤ off then '+' else '-'
  let a := off.natAbs
  let minutes := a / 60
  let hours := minutes / 60
  let mins := minutes % 60
  sign :: (padZero 2 (natDigits hours) ++ padZero 2 (natDigits mins))

/-- Replacement text for a two-character directive `%c2`, following the
three `if`/`elif` branches of `adjust_strftime`; `none` means the directive
is not one of `%f`/`%z`/`%Z` and the format string is left unchanged there. -/
def replToken (dt : AltDT) (c2 : Char) : Option (List Char) :=
  if c2 = 'f' then some (padZero 6 (natDigits dt.microsecond))
  else if c2 = 'z' then
    some (match dt.tzinfo with
      | none => []
      | some tz =>
        match tz.utcoffsetSecs with
        | none => []
        | some off => offsetRender off)
  else if c2 = 'Z' then
    some (match dt.tzinfo with
      | none => []
      | some tz => tz.name.toList)
  else none

/-- `list(format_re.finditer(format_str))` for `format_re = re.compile('%.')`:
the start positions and second characters of the non-overlapping,
left-to-right matches of `%` followed by any character other than a newline.
`i` is the position of the head of the remaining character list in the
original string. -/
def formatMatches : ℕ → List Char → List (ℕ × Char)
  | _, [] => []
  | _, [_] => []
  | i, c :: c2 :: rest2 =>
    if c = '%' then
      if c2 = '\n' then formatMatches (i + 1) (c2 :: rest2)
      else (i, c2) :: formatMatches (i + 2) rest2
    else formatMatches (i + 1) (c2 :: rest2)

/-- `format_str[:start] + repl + format_str[stop:]`. -/
def spliceAt (s : List Char) (start stop : ℕ) (repl : List Char) : List Char :=
  s.take start ++ repl ++ s.drop stop

/-- One iteration of the `for m in reversed(format_chars)` loop body of
`adjust_strftime`: splice the replacement over `format_str[m.start():m.end()]`
when the matched text is `%f`, `%z` or `%Z`, otherwise leave the string
unchanged. -/
def applyMatch (dt : AltDT) (s : List Char) (m : ℕ × Char) : List Char :=
  match replToken dt m.2 with
  | some r => spliceAt s m.1 (m.1 + 2) r
  | none => s

/-- `adjust_strftime(dt, format_str)`: compute the matches of `%.` on the
original string, then fold the splice step over them in reverse order. -/
def adjust_strftime (dt : AltDT) (fmt : List Char) : List Char :=
  ((formatMatches 0 fmt).reverse).foldl (applyMatch dt) fmt

/-- Specification form of `adjust_strftime` as a single left-to-right pass
over the directive tokens: each two-character directive `%c` (with `c` not a
newline) is replaced by `replToken` when it is `%f`/`%z`/`%Z` and kept
otherwise, and every other character is kept. -/
def adjustSpec (dt : AltDT) : List Char → List Char
  | [] => []
  | [c] => [c]
  | c :: c2 :: rest2 =>
    if c = '%' then
      if c2 = '\n' then c :: adjustSpec dt (c2 :: rest2)
      else (match replToken dt c2 with
            | some r => r
            | none => [c, c2]) ++ adjustSpec dt rest2
    else c :: adjustSpec dt (c2 :: rest2)

/-! ## Virtual clock state (`virtualtime/__init__.py`)

The module-level mutable state: `_time_offset`, `_in_skip_time_change`, and
the weak event registries.  Events are modelled by their `set` flags; the
state mutators are modelled as functions returning the state after the call
completes together with the list of externally observable actions the call
performs, in program order. -/

/-- The module-level state touched by `set_offset` / `restore_time`:
`timeOffset` is `_time_offset`, `inSkip` is `_in_skip_time_change`,
`callbackEvents` and `notifyEvents` are the `set` flags of the events
currently held in `_virtual_time_callback_events` and
`_virtual_time_notify_events`. -/
structure VTState where
  timeOffset : ℚ
  inSkip : Bool
  callbackEvents : List Bool
  notifyEvents : List Bool
deriving DecidableEq

/-- The log lines emitted by offset mutations: `set_offset` logs
"Virtual time offset adjusted from %r to %r", `restore_time` logs
"Virtual time offset restored from %r to %r". -/
inductive LogMsg where
  | adjusted (oldOff newOff : ℚ)
  | restored (oldOff newOff : ℚ)
deriving DecidableEq

/-- Externally observable actions of an offset mutation, in program order:
writes to `_in_skip_time_change`, log emission, clearing every callback
event, `notify_all` on the condition, setting every notify event, and the
final bounded wait (up to `MAX_CALLBACK_TIME` = 1.0 s each) on the listed
callback events.  Whether a callback event gets re-set during the wait
depends on concurrent watchers and is abstracted into the single
`waitCallbacks` action. -/
inductive Action where
  | setInSkip (b : Bool)
  | log (m : LogMsg)
  | clearCallbacks
  | notifyAll
  | setNotify
  | waitCallbacks (n : ℕ)
deriving DecidableEq

/-- `set_offset(new_offset, suppress_log, is_fast_forward_change)`: under the
state lock sets `_in_skip_time_change = not is_fast_forward_change`, stores
the new offset, logs unless suppressed, clears every callback event, calls
`notify_all`, sets every notify event; then outside the lock waits (bounded)
on each callback event; finally resets `_in_skip_time_change = False`.
Result: the state after the call and the action trace. -/
def set_offset (newOffset : ℚ) (suppressLog isFF : Bool) (s : VTState) :
    VTState × List Action :=
  ({ timeOffset := newOffset
     inSkip := false
     callbackEvents := s.callbackEvents.map (fun _ => false)
     notifyEvents := s.notifyEvents.map (fun _ => true) },
   [Action.setInSkip (!isFF)]
     ++ (if suppressLog then [] else [Action.log (.adjusted s.timeOffset newOffset)])
     ++ [Action.clearCallbacks, Action.notifyAll, Action.setNotify,
         Action.waitCallbacks s.callbackEvents.length, Action.setInSkip false])

/-- `restore_time()`: under the state lock sets `_time_offset = 0`, logs
("restored"), clears every callback event, calls `notify_all`, sets every
notify event; then outside the lock waits (bounded) on each callback event.
It does not touch `_in_skip_time_change`. -/
def restore_time (s : VTState) : VTState × List Action :=
  ({ timeOffset := 0
     inSkip := s.inSkip
     callbackEvents := s.callbackEvents.map (fun _ => false)
     notifyEvents := s.notifyEvents.map (fun _ => true) },
   [Action.log (.restored s.timeOffset 0), Action.clearCallbacks, Action.notifyAll,
    Action.setNotify, Action.waitCallbacks s.callbackEvents.length])

/-- `_virtual_time()` = `_original_time() + _time_offset`, as a function of
the real clock reading `realNow` and the state. -/
def virtualTime (realNow : ℚ) (s : VTState) : ℚ :=
  realNow + s.timeOffset

/-- Erase the `_in_skip_time_change` writes from an action trace (used to
compare `set_offset(0)` with `restore_time`, which never touches that
flag). -/
def dropInSkip (tr : List Action) : List Action :=
  tr.filter (fun a => match a with | .setInSkip _ => false | _ => true)

/-- Map `restore_time`'s "restored" log line to `set_offset`'s "adjusted"
log line with the same offsets (the two calls log the same data under
different wordings). -/
def relabelRestoreLog (a : Action) : Action :=
  match a with
  | .log (.restored x y) => .log (.adjusted x y)
  | a => a

/-! ## Fast-forward stepping (`fast_forward_time`) -/

/-- The step size actually used by `fast_forward_time`: the code negates the
caller-supplied `step_size` exactly when `delta < 0`
(`if delta < 0: step_size = -step_size`). -/
def normStep (delta step : ℚ) : ℚ :=
  if delta < 0 then -step else step

/-- `steps` of `steps, part = divmod(delta, step_size)` after sign
normalisation: Python float floor division. -/
def ffSteps (delta step : ℚ) : ℤ :=
  ⌊delta / normStep delta step⌋

/-- `part` of `steps, part = divmod(delta, step_size)` after sign
normalisation: the floor-division remainder. -/
def ffPart (delta step : ℚ) : ℚ :=
  delta - normStep delta step * ffSteps delta step

/-- The sequence of offsets installed by `fast_forward_time(delta, step_size)`
starting from offset `orig`: `set_offset(original_offset + step*step_size)`
for `step in range(1, int(steps)+1)`, then, if `part != 0`, a final
`set_offset(original_offset + delta)`.  (`int(steps)` truncates the integral
float `steps` to itself; `range` is empty whenever `steps < 1`.) -/
def ffOffsets (orig delta step : ℚ) : List ℚ :=
  (List.range (ffSteps delta step).toNat).map
      (fun (i : ℕ) => orig + ((i : ℚ) + 1) * normStep delta step)
    ++ (if ffPart delta step ≠ 0 then [orig + delta] else [])

/-! ## The patching audit (`enabled`) -/

/-- One patchable entry point as `enabled()` sees it: the identity of the
currently bound function (`check_function`), of the original implementation
(`orig_function`) and of the virtual implementation (`virtual_function`).
Function identities are modelled as naturals; the real call site passes nine
entries (the seven `time`-module functions plus `datetime.datetime.now` and
`datetime.datetime.utcnow`). -/
structure EntryPoint where
  current : ℕ
  origId : ℕ
  virtId : ℕ
deriving DecidableEq

/-- The classification `enabled()` computes per entry point:
`"orig" if check_function == orig_function else ("virtual" if check_function
== virtual_function else "unexpected")`. -/
inductive BindState where
  | orig
  | virt
  | unexpected
deriving DecidableEq

/-- Classify one entry point. -/
def classify (e : EntryPoint) : BindState :=
  if e.current = e.origId then .orig
  else if e.current = e.virtId then .virt
  else .unexpected

/-- The `ValueError`s `enabled()` can raise.  `constantPatched` is the error
for a drifted constant binding (`datetime.datetime`, `threading._time`,
`threading._sleep`); `emptyCheck` is a modelling artifact for an empty entry
list (the real call site always passes nine entries, and there the Python
code would raise an `IndexError`, which likewise never occurs). -/
inductive VTError where
  | constantPatched
  | inconsistentState
  | unexpectedFunctions
  | emptyCheck
deriving DecidableEq

/-- `enabled()`: first raises if any constant binding (current, expected)
pair mismatches; then classifies every patchable entry point, collects the
distinct classifications (`set(check_results.values())`), raises
"Inconsistent state of virtual time patching" when more than one distinct
classification occurs, raises "Unexpected functions in virtual time
patching" when the single classification is `unexpected`, and otherwise
returns whether the single classification is `virtual`.  (The code logs the
unexpected entries before the inconsistency check; logging is omitted
here.) -/
def enabled (constants : List (ℕ × ℕ)) (entries : List EntryPoint) :
    Except VTError Bool :=
  if constants.any (fun c => c.1 != c.2) then .error .constantPatched
  else
    let combined := (entries.map classify).dedup
    if 1 < combined.length then .error .inconsistentState
    else
      match combined with
      | [b] => if b = .unexpected then .error .unexpectedFunctions else .ok (b = .virt)
      | _ => .error .emptyCheck

/-! ## The calendrical "now" constructors (class `datetime` /
`virtual_datetime`)

On runtimes where `datetime.datetime.now` internally calls `time.time()`
(PyPy, or CPython on Windows — `_datetime_now_uses_time`), the underlying
`now` already includes `_time_offset` whenever `time.time` is patched.
Instants are modelled as rationals (seconds). -/

/-- What `_underlying_datetime_type.now()` returns, as a function of the
platform flag `usesTime` (`_datetime_now_uses_time`), of whether `time.time`
is currently bound to something other than `_original_time` (`patched`), of
the real clock reading and of the current offset. -/
def underlyingDatetimeNow (usesTime patched : Bool) (realNow offset : ℚ) : ℚ :=
  realNow + (if usesTime && patched then offset else 0)

/-- The overlay base class `datetime.now()`: when `_datetime_now_uses_time`,
it is overridden to call the underlying `now` and, `if time.time !=
_original_time`, add `timedelta(seconds=-_time_offset)`; on other platforms
the override does not exist and the underlying `now` is inherited. -/
def overlayDatetimeNow (usesTime patched : Bool) (realNow offset : ℚ) : ℚ :=
  if usesTime then
    (if patched then underlyingDatetimeNow usesTime patched realNow offset - offset
     else underlyingDatetimeNow usesTime patched realNow offset)
  else underlyingDatetimeNow usesTime patched realNow offset

/-- `virtual_datetime.now()` = `_original_datetime_now()` (the overlay base
class's `now`) plus `timedelta(seconds=_time_offset)`. -/
def virtualDatetimeNow (usesTime patched : Bool) (realNow offset : ℚ) : ℚ :=
  overlayDatetimeNow usesTime patched realNow offset + offset

/-- What `_underlying_datetime_type.utcnow()` returns (same structure as
`now`; the UTC base point is absorbed into `realNow`). -/
def underlyingDatetimeUtcnow (usesTime patched : Bool) (realNow offset : ℚ) : ℚ :=
  realNow + (if usesTime && patched then offset else 0)

/-- The overlay base class `datetime.utcnow()` (same correction as `now`). -/
def overlayDatetimeUtcnow (usesTime patched : Bool) (realNow offset : ℚ) : ℚ :=
  if usesTime then
    (if patched then underlyingDatetimeUtcnow usesTime patched realNow offset - offset
     else underlyingDatetimeUtcnow usesTime patched realNow offset)
  else underlyingDatetimeUtcnow usesTime patched realNow offset

/-- `virtual_datetime.utcnow()` = `_original_datetime_utcnow()` plus the
offset. -/
def virtualDatetimeUtcnow (usesTime patched : Bool) (realNow offset : ℚ) : ℚ :=
  overlayDatetimeUtcnow usesTime patched realNow offset + offset

/-! ## Overlay-type preservation (class `datetime` arithmetic)

The runtime type of a calendrical value: the plain underlying
`datetime.datetime` base type, the overlay class `virtualtime.datetime`, or
its leaf subclass `virtual_datetime`.  Values are modelled as a timestamp
plus their runtime type; the type the *underlying* CPython operation returns
is runtime-version dependent and is therefore a parameter `uty` of each
operation. -/

/-- Runtime type tag: `base` = plain `datetime.datetime`,
`overlay` = `virtualtime.datetime`, `virt` = `virtual_datetime`. -/
inductive DTTy where
  | base
  | overlay
  | virt
deriving DecidableEq

/-- `isinstance(r, datetime_module.datetime)` where `datetime_module.datetime`
has been rebound to the overlay class: true for the overlay class and its
subclasses. -/
def isOverlayInstance : DTTy → Bool
  | .base => false
  | .overlay => true
  | .virt => true

/-- A calendrical value: its timestamp and its runtime type.  (Everything is
an instance of the underlying base type, so the source's
`isinstance(r, _underlying_datetime_type)` test is always true here.) -/
structure DTv where
  val : ℚ
  ty : DTTy
deriving DecidableEq

/-- The re-wrap step shared by the arithmetic methods:
`if isinstance(r, _underlying_datetime_type) and not isinstance(r,
datetime_module.datetime): r = datetime_module.datetime(r)` — rebuilding
through the overlay `__new__`, which decomposes into the calendrical fields
and reconstructs an instance of the overlay class. -/
def dtWrap (r : DTv) : DTv :=
  if isOverlayInstance r.ty then r else { val := r.val, ty := .overlay }

/-- `datetime.__add__(self, other)` for a duration `d`: delegate to the
underlying addition (returning runtime type `uty`), then re-wrap. -/
def dtAdd (uty : DTTy) (v : DTv) (d : ℚ) : DTv :=
  dtWrap { val := v.val + d, ty := uty }

/-- `datetime.__radd__` is the same function object as `__add__`
(`__radd__ = __add__`), so `d + v` re-wraps the same way. -/
def dtRAdd (uty : DTTy) (d : ℚ) (v : DTv) : DTv :=
  dtAdd uty v d

/-- `datetime.__sub__(self, other)` for a duration `d`. -/
def dtSub (uty : DTTy) (v : DTv) (d : ℚ) : DTv :=
  dtWrap { val := v.val - d, ty := uty }

/-- `datetime.combine(date, time)`: delegate to the underlying `combine`
(its result timestamp is the combination of the date part and time part,
abstracted as a sum), then re-wrap. -/
def dtCombine (uty : DTTy) (dateVal timeVal : ℚ) : DTv :=
  dtWrap { val := dateVal + timeVal, ty := uty }

/-- `datetime.astimezone(self, tzinfo)`: delegate to the underlying
`astimezone` (shifting the wall-clock representation by `tzShift`), then
rebuild via `_original_datetime_type.__new__(type(self), d)` — the result
has the same runtime type as `self`. -/
def dtAstimezone (v : DTv) (tzShift : ℚ) : DTv :=
  { val := v.val + tzShift, ty := v.ty }

/-- `datetime.replace(self, **kw)`: delegate to the underlying `replace`,
then rebuild via `__new__(type(self), d)` — the result has the same runtime
type as `self`. -/
def dtReplace (v : DTv) (newVal : ℚ) : DTv :=
  { val := newVal, ty := v.ty }

/-! ## `_virtual_sleep` -/

/-- The `_virtual_sleep` loop, abstracted over the sequence of virtual-time
readings it observes (one per loop iteration; between iterations the
condition wait or the 1 ms real sleep happens and the offset may change).
`expected_end` is `ee`; the result is the index of the observation at which
the loop breaks and the call returns, or `none` if it is still blocked after
all listed observations. -/
def virtualSleepLoop (ee : ℚ) : List ℚ → Option ℕ
  | [] => none
  | vt :: rest =>
    if ee - vt ≤ 0 then some 0
    else (virtualSleepLoop ee rest).map (· + 1)

/-- `_virtual_sleep(seconds)` computes `expected_end = _virtual_time() +
seconds` from the virtual time `vt0` observed at entry, then runs the loop
over the subsequent observations. -/
def virtualSleep (seconds vt0 : ℚ) (obs : List ℚ) : Option ℕ :=
  virtualSleepLoop (vt0 + seconds) obs

/-! ## Helper lemmas -/

/-- Unfolding: a `%` followed by a newline is not matched by `%.`; scanning
resumes at the newline. -/
lemma formatMatches_pct_nl (i : ℕ) (rest2 : List Char) :
    formatMatches i ('%' :: '\n' :: rest2) = formatMatches (i + 1) ('\n' :: rest2) := by
  simp [formatMatches]

/-- Unfolding: `%c2` with `c2` not a newline is a match; scanning resumes
after it. -/
lemma formatMatches_pct (i : ℕ) (c2 : Char) (h : c2 ≠ '\n') (rest2 : List Char) :
    formatMatches i ('%' :: c2 :: rest2) = (i, c2) :: formatMatches (i + 2) rest2 := by
  simp [formatMatches, h]

/-- Unfolding: a non-`%` character starts no match. -/
lemma formatMatches_other (i : ℕ) (c c2 : Char) (h : c ≠ '%') (rest2 : List Char) :
    formatMatches i (c :: c2 :: rest2) = formatMatches (i + 1) (c2 :: rest2) := by
  simp [formatMatches, h]

/-- The match positions of a scan started at `i + j` are those of a scan
started at `j`, shifted by `i`. -/
lemma formatMatches_shift :
    ∀ (n : ℕ) (l : List Char), l.length ≤ n → ∀ (i j : ℕ),
      formatMatches (i + j) l = (formatMatches j l).map (fun m => (m.1 + i, m.2)) := by
  intro n
  induction n with
  | zero =>
    intro l hl i j
    have : l = [] := List.length_eq_zero.1 (Nat.le_zero.1 hl)
    subst this
    rfl
  | succ n ih =>
    intro l hl i j
    rcases l with _ | ⟨c, _ | ⟨c2, rest2⟩⟩
    · rfl
    · rfl
    · simp only [List.length_cons] at hl
      by_cases hc : c = '%'
      · subst hc
        by_cases hc2 : c2 = '\n'
        · subst hc2
          rw [formatMatches_pct_nl, formatMatches_pct_nl,
            show i + j + 1 = i + (j + 1) from by omega,
            ih ('\n' :: rest2) (by simp; omega) i (j + 1)]
        · rw [formatMatches_pct _ _ hc2, formatMatches_pct _ _ hc2,
            show i + j + 2 = i + (j + 2) from by omega,
            ih rest2 (by omega) i (j + 2)]
          simp [Nat.add_comm]
      · rw [formatMatches_other _ _ _ hc, formatMatches_other _ _ _ hc,
          show i + j + 1 = i + (j + 1) from by omega,
          ih (c2 :: rest2) (by simp; omega) i (j + 1)]

/-- Specialisation of `formatMatches_shift` to a scan started at 0. -/
lemma formatMatches_eq_shift0 (i : ℕ) (l : List Char) :
    formatMatches i l = (formatMatches 0 l).map (fun m => (m.1 + i, m.2)) := by
  have := formatMatches_shift l.length l le_rfl i 0
  simpa using this

/-- Unfolding: `%` before a newline passes both characters through. -/
lemma adjustSpec_pct_nl (dt : AltDT) (rest2 : List Char) :
    adjustSpec dt ('%' :: '\n' :: rest2) = '%' :: adjustSpec dt ('\n' :: rest2) := by
  simp [adjustSpec]

/-- Unfolding: a `%c2` directive is replaced per `replToken` (or kept). -/
lemma adjustSpec_pct (dt : AltDT) (c2 : Char) (h : c2 ≠ '\n') (rest2 : List Char) :
    adjustSpec dt ('%' :: c2 :: rest2) =
      (match replToken dt c2 with
       | some r => r
       | none => ['%', c2]) ++ adjustSpec dt rest2 := by
  simp [adjustSpec, h]

/-- Unfolding: a non-`%` character passes through. -/
lemma adjustSpec_other (dt : AltDT) (c c2 : Char) (h : c ≠ '%') (rest2 : List Char) :
    adjustSpec dt (c :: c2 :: rest2) = c :: adjustSpec dt (c2 :: rest2) := by
  simp [adjustSpec, h]

/-- The reverse-order `foldl` of the splice step is a `foldr` over the match
list. -/
lemma adjust_strftime_eq_foldr (dt : AltDT) (fmt : List Char) :
    adjust_strftime dt fmt
      = (formatMatches 0 fmt).foldr (fun m t => applyMatch dt t m) fmt := by
  unfold adjust_strftime
  rw [List.foldl_reverse]

/-- Splicing at a position past an untouched prefix leaves the prefix
intact. -/
lemma spliceAt_append_shift (pre s : List Char) (p : ℕ) (r : List Char) :
    spliceAt (pre ++ s) (p + pre.length) (p + pre.length + 2) r
      = pre ++ spliceAt s p (p + 2) r := by
  unfold spliceAt
  rw [List.take_append_eq_append_take, List.drop_append_eq_append_drop]
  rw [List.take_of_length_le (by omega), List.drop_eq_nil_of_le (by omega)]
  rw [Nat.add_sub_cancel, show p + pre.length + 2 - pre.length = p + 2 from by omega]
  simp

/-- Folding the splice step over matches whose positions all lie past an
untouched prefix rewrites only the suffix. -/
lemma foldr_applyMatch_shift (dt : AltDT) (pre : List Char) :
    ∀ (ms : List (ℕ × Char)) (s : List Char) (k : ℕ), k = pre.length →
      (ms.map (fun m => (m.1 + k, m.2))).foldr (fun m t => applyMatch dt t m) (pre ++ s)
        = pre ++ ms.foldr (fun m t => applyMatch dt t m) s := by
  intro ms
  induction ms with
  | nil =>
    intro s k hk
    rfl
  | cons m ms ih =>
    intro s k hk
    subst hk
    simp only [List.map_cons, List.foldr_cons, ih s pre.length rfl]
    show applyMatch dt (pre ++ List.foldr (fun m t => applyMatch dt t m) s ms)
        (m.1 + pre.length, m.2) = _
    unfold applyMatch
    cases hr : replToken dt m.2 with
    | none => simp
    | some r => simpa using spliceAt_append_shift pre _ m.1 r

/-- The reverse-order positional splicing of `adjust_strftime` computes the
left-to-right token substitution `adjustSpec`. -/
lemma adjust_eq_adjustSpec (dt : AltDT) :
    ∀ fmt : List Char, adjust_strftime dt fmt = adjustSpec dt fmt := by
  suffices h : ∀ (n : ℕ) (fmt : List Char), fmt.length ≤ n →
      adjust_strftime dt fmt = adjustSpec dt fmt from
    fun fmt => h fmt.length fmt le_rfl
  intro n
  induction n with
  | zero =>
    intro fmt hl
    have : fmt = [] := List.length_eq_zero.1 (Nat.le_zero.1 hl)
    subst this
    rfl
  | succ n ih =>
    intro fmt hl
    rcases fmt with _ | ⟨c, _ | ⟨c2, rest2⟩⟩
    · rfl
    · rfl
    · simp only [List.length_cons] at hl
      rw [adjust_strftime_eq_foldr]
      by_cases hc : c = '%'
      · subst hc
        by_cases hc2 : c2 = '\n'
        · subst hc2
          have key : (formatMatches 0 ('%' :: '\n' :: rest2)).foldr
              (fun m t => applyMatch dt t m) ('%' :: '\n' :: rest2)
              = ['%'] ++ adjustSpec dt ('\n' :: rest2) := by
            rw [formatMatches_pct_nl, show (0 : ℕ) + 1 = 1 from rfl,
              formatMatches_eq_shift0 1,
              show ('%' :: '\n' :: rest2 : List Char) = ['%'] ++ ('\n' :: rest2) from rfl,
              foldr_applyMatch_shift dt ['%'] _ _ 1 rfl,
              ← adjust_strftime_eq_foldr,
              ih ('\n' :: rest2) (by simp; omega)]
          rw [key, adjustSpec_pct_nl]
          rfl
        · have key : (formatMatches 2 rest2).foldr
              (fun m t => applyMatch dt t m) ('%' :: c2 :: rest2)
              = ['%', c2] ++ adjustSpec dt rest2 := by
            rw [formatMatches_eq_shift0 2,
              show ('%' :: c2 :: rest2 : List Char) = ['%', c2] ++ rest2 from rfl,
              foldr_applyMatch_shift dt ['%', c2] _ _ 2 rfl,
              ← adjust_strftime_eq_foldr,
              ih rest2 (by omega)]
          rw [formatMatches_pct _ _ hc2, show (0 : ℕ) + 2 = 2 from rfl,
            List.foldr_cons, key, adjustSpec_pct dt c2 hc2]
          unfold applyMatch
          cases hr : replToken dt c2 with
          | none => simp
          | some r => simp [spliceAt]
      · have key : (formatMatches 1 (c2 :: rest2)).foldr
            (fun m t => applyMatch dt t m) (c :: c2 :: rest2)
            = [c] ++ adjustSpec dt (c2 :: rest2) := by
          rw [formatMatches_eq_shift0 1,
            show (c :: c2 :: rest2 : List Char) = [c] ++ (c2 :: rest2) from rfl,
            foldr_applyMatch_shift dt [c] _ _ 1 rfl,
            ← adjust_strftime_eq_foldr,
            ih (c2 :: rest2) (by simp; omega)]
        rw [formatMatches_other _ _ _ hc, show (0 : ℕ) + 1 = 1 from rfl, key,
          adjustSpec_other dt c c2 hc]
        rfl

/-- The re-wrap step always yields an overlay-class instance. -/
lemma isOverlayInstance_dtWrap (r : DTv) : isOverlayInstance (dtWrap r).ty = true := by
  unfold dtWrap
  cases h : r.ty <;> simp [h, isOverlayInstance]

/-- For a positive caller-supplied step size, every offset installed by
`fast_forward_time` lies between the starting offset and the target. -/
lemma ffOffsets_mem_between {orig delta step x : ℚ} (hs : 0 < step)
    (hx : x ∈ ffOffsets orig delta step) :
    min orig (orig + delta) ≤ x ∧ x ≤ max orig (orig + delta) := by
  simp only [ffOffsets] at hx
  rcases List.mem_append.1 hx with h | h
  · simp only [List.mem_map, List.mem_range] at h
    obtain ⟨i, hi, rfl⟩ := h
    have hiz : ((i : ℤ) + 1) ≤ ffSteps delta step := by
      have := Int.lt_toNat.1 hi
      omega
    have hiq : ((i : ℚ) + 1) ≤ ((ffSteps delta step : ℤ) : ℚ) := by
      exact_mod_cast hiz
    have hfloor : ((ffSteps delta step : ℤ) : ℚ) ≤ delta / normStep delta step :=
      Int.floor_le _
    have hle : ((i : ℚ) + 1) ≤ delta / normStep delta step := hiq.trans hfloor
    have h1le : (1 : ℚ) ≤ (i : ℚ) + 1 := le_add_of_nonneg_left (Nat.cast_nonneg i)
    rcases lt_trichotomy delta 0 with hd | hd | hd
    · have hsn : normStep delta step = -step := by simp [normStep, hd]
      rw [hsn] at hle
      have hne : (-step : ℚ) ≠ 0 := by linarith
      have key1 : delta ≤ ((i : ℚ) + 1) * -step := by
        have := mul_le_mul_of_nonpos_right hle (by linarith : (-step : ℚ) ≤ 0)
        rwa [div_mul_cancel₀ _ hne] at this
      have key2 : ((i : ℚ) + 1) * -step ≤ 1 * -step :=
        mul_le_mul_of_nonpos_right h1le (by linarith)
      rw [hsn]
      constructor
      · have : min orig (orig + delta) = orig + delta := min_eq_right (by linarith)
        rw [this]; linarith
      · have : max orig (orig + delta) = orig := max_eq_left (by linarith)
        rw [this]; linarith
    · subst hd
      simp [ffSteps, normStep] at hi
    · have hsn : normStep delta step = step := by
        simp [normStep, not_lt.2 hd.le]
      rw [hsn] at hle
      have hne : (step : ℚ) ≠ 0 := ne_of_gt hs
      have key1 : ((i : ℚ) + 1) * step ≤ delta := by
        have := mul_le_mul_of_nonneg_right hle hs.le
        rwa [div_mul_cancel₀ _ hne] at this
      have key2 : 1 * step ≤ ((i : ℚ) + 1) * step :=
        mul_le_mul_of_nonneg_right h1le hs.le
      rw [hsn]
      constructor
      · have : min orig (orig + delta) = orig := min_eq_left (by linarith)
        rw [this]; linarith
      · have : max orig (orig + delta) = orig + delta := max_eq_right (by linarith)
        rw [this]; linarith
  · by_cases hp : ffPart delta step ≠ 0
    · simp only [if_pos hp, List.mem_singleton] at h
      subst h
      exact ⟨min_le_right _ _, le_max_right _ _⟩
    · simp [hp] at h

/-- `dedup` of a nonempty constant list is the singleton of that constant. -/
lemma dedup_eq_singleton {α : Type} [DecidableEq α] {b : α} :
    ∀ l : List α, l ≠ [] → (∀ x ∈ l, x = b) → l.dedup = [b] := by
  intro l
  induction l with
  | nil => intro h _; exact absurd rfl h
  | cons a t ih =>
    intro _ hall
    have ha : a = b := hall a (List.mem_cons_self a t)
    rcases eq_or_ne t [] with rfl | ht
    · subst ha
      rfl
    · have hdt : t.dedup = [b] :=
        ih ht (fun x hx => hall x (List.mem_cons_of_mem _ hx))
      have hmem : a ∈ t := by
        have : a ∈ t.dedup := by rw [hdt, ha]; exact List.mem_singleton_self b
        exact List.mem_dedup.1 this
      rw [List.dedup_cons_of_mem hmem, hdt]

/-- Two distinct members force more than one distinct value. -/
lemma one_lt_dedup_length {α : Type} [DecidableEq α] {l : List α} {x y : α}
    (hx : x ∈ l) (hy : y ∈ l) (hxy : x ≠ y) : 1 < l.dedup.length := by
  have hx' : x ∈ l.dedup := List.mem_dedup.2 hx
  have hy' : y ∈ l.dedup := List.mem_dedup.2 hy
  rcases hl : l.dedup with _ | ⟨a, _ | ⟨b, t⟩⟩
  · rw [hl] at hx'
    simp at hx'
  · rw [hl] at hx' hy'
    simp at hx' hy'
    exact absurd (hx'.trans hy'.symm) hxy
  · simp

/-- The two halves of the `_virtual_sleep` loop contract: the loop returns
only at an observation with `expected_end − vt ≤ 0`, having seen only
observations with positive remaining time before it; and whenever some
observation satisfies `expected_end ≤ vt` the loop has returned at it or
earlier. -/
lemma virtualSleepLoop_spec (ee : ℚ) :
    ∀ obs : List ℚ,
      (∀ i : ℕ, virtualSleepLoop ee obs = some i →
        (∃ v, obs[i]? = some v ∧ ee ≤ v) ∧
        ∀ j : ℕ, j < i → ∀ v, obs[j]? = some v → 0 < ee - v) ∧
      (∀ (i : ℕ) (v : ℚ), obs[i]? = some v → ee ≤ v →
        ∃ j, j ≤ i ∧ virtualSleepLoop ee obs = some j) := by
  intro obs
  induction obs with
  | nil =>
    constructor
    · intro i hi
      simp [virtualSleepLoop] at hi
    · intro i v hv _
      simp at hv
  | cons vt rest ih =>
    by_cases hvt : ee - vt ≤ 0
    · constructor
      · intro i hi
        simp only [virtualSleepLoop, if_pos hvt, Option.some.injEq] at hi
        subst hi
        exact ⟨⟨vt, by simp, by linarith⟩, fun j hj => absurd hj (Nat.not_lt_zero j)⟩
      · intro i v _ _
        refine ⟨0, Nat.zero_le i, ?_⟩
        unfold virtualSleepLoop
        rw [if_pos hvt]
    · constructor
      · intro i hi
        simp only [virtualSleepLoop, if_neg hvt, Option.map_eq_some'] at hi
        obtain ⟨k, hk, rfl⟩ := hi
        obtain ⟨⟨v, hv, hev⟩, hprev⟩ := ih.1 k hk
        refine ⟨⟨v, by simpa using hv, hev⟩, ?_⟩
        intro j hj w hw
        cases j with
        | zero =>
          simp at hw
          subst hw
          linarith [not_le.1 hvt]
        | succ j' =>
          exact hprev j' (by omega) w (by simpa using hw)
      · intro i v hv hev
        cases i with
        | zero =>
          simp at hv
          subst hv
          linarith [not_le.1 hvt]
        | succ i' =>
          obtain ⟨j, hji, hj⟩ := ih.2 i' v (by simpa using hv) hev
          refine ⟨j + 1, by omega, ?_⟩
          unfold virtualSleepLoop
          rw [if_neg hvt, hj]
          rfl

/-! ## C1 -/

/-- C1: after `set_offset(o)` completes the offset equals `o` and
`_virtual_time()` returns `_original_time() + o`; the invariant
virtual-now = real-now + offset holds after every offset mutation, including
after each individual fast-forward step (each intermediate offset `x` of
`fast_forward_time` is installed by `set_offset(x)` and the reader then
returns real-now + `x`). -/
theorem claim_C1_offset_invariant :
    (∀ (o : ℚ) (sup ff : Bool) (s : VTState) (r : ℚ),
        (set_offset o sup ff s).1.timeOffset = o ∧
        virtualTime r (set_offset o sup ff s).1 = r + o) ∧
    (∀ (orig delta step x : ℚ), x ∈ ffOffsets orig delta step →
       ∀ (s : VTState) (r : ℚ),
         (set_offset x true true s).1.timeOffset = x ∧
         virtualTime r (set_offset x true true s).1 = r + x) := by
  constructor
  · intro o sup ff s r
    exact ⟨rfl, rfl⟩
  · intro orig delta step x _ s r
    exact ⟨rfl, rfl⟩

/-- Witness for C1 at a concrete fast-forward step: `1` is the single
intermediate offset of `fast_forward_time(delta=1, step_size=1)` from offset
`0`, and installing it gives offset `1` and a reader value of `real + 1`. -/
theorem claim_C1_offset_invariant_witness :
    (1 : ℚ) ∈ ffOffsets 0 1 1 ∧
      ((set_offset 1 true true ⟨0, false, [], []⟩).1.timeOffset = 1 ∧
       virtualTime 41 (set_offset 1 true true ⟨0, false, [], []⟩).1 = 41 + 1) := by
  have hmem : (1 : ℚ) ∈ ffOffsets 0 1 1 := by
    norm_num [ffOffsets, ffSteps, ffPart, normStep, List.range_succ]
  exact ⟨hmem, claim_C1_offset_invariant.2 0 1 1 1 hmem ⟨0, false, [], []⟩ 41⟩

/-! ## C4 -/

/-- C4 counterexample: `restore_time()` is not observationally equivalent to
`set_offset(0)`.  From the same state, `set_offset(0)` writes
`_in_skip_time_change = True` during the change (and resets it afterwards),
an effect observable through `in_skip_time_change()`, while `restore_time()`
performs no such write; the two action traces differ. -/
theorem claim_C4_counterexample :
    (restore_time ⟨5, false, [true], [false]⟩).2 ≠
        (set_offset 0 false false ⟨5, false, [true], [false]⟩).2 ∧
      Action.setInSkip true ∈ (set_offset 0 false false ⟨5, false, [true], [false]⟩).2 ∧
      Action.setInSkip true ∉ (restore_time ⟨5, false, [true], [false]⟩).2 := by
  refine ⟨fun h => ?_, ?_, ?_⟩
  · have := congrArg List.length h
    simp [restore_time, set_offset] at this
  · simp [set_offset]
  · simp [restore_time]

/-- C4 (amended): `restore_time()` sets the offset to 0, logs the change,
clears every callback event, wakes all condition waiters, signals every
notify event and waits boundedly per callback event — the same actions, in
the same order, as `set_offset(0)` up to the log wording — and afterwards
the reader returns real OS time; provided the in-skip flag was clear
beforehand, the final state is exactly that of `set_offset(0)`.  Unlike
`set_offset(0)`, it performs no writes to `_in_skip_time_change`. -/
theorem claim_C4_restore_amended :
    ∀ s : VTState,
      ((restore_time s).1.timeOffset = 0 ∧
       (∀ r, virtualTime r (restore_time s).1 = r) ∧
       dropInSkip (set_offset 0 false false s).2 =
         (restore_time s).2.map relabelRestoreLog) ∧
      (s.inSkip = false → (restore_time s).1 = (set_offset 0 false false s).1) := by
  intro s
  refine ⟨⟨rfl, fun r => ?_, ?_⟩, fun h => ?_⟩
  · simp [virtualTime, restore_time]
  · simp [dropInSkip, relabelRestoreLog, set_offset, restore_time]
  · simp [restore_time, set_offset, h]

/-- Witness for C4 (amended) at a concrete state with the in-skip flag
clear. -/
theorem claim_C4_restore_amended_witness :
    (restore_time ⟨5, false, [true], [false]⟩).1 =
      (set_offset 0 false false ⟨5, false, [true], [false]⟩).1 :=
  (claim_C4_restore_amended ⟨5, false, [true], [false]⟩).2 rfl

/-! ## C5 -/

/-- C5: on runtimes where the base `now`/`utcnow` internally call
`time.time()` (`usesTime = true`), the overlay base class's `now`/`utcnow`
subtract the offset exactly when `time.time` is patched, returning the real
current instant with no double-applied offset; on all platforms,
`virtual_datetime.now`/`utcnow` return the underlying real now plus the
offset. -/
theorem claim_C5_now_correction :
    ∀ (patched : Bool) (realNow offset : ℚ),
      (overlayDatetimeNow true patched realNow offset = realNow ∧
       overlayDatetimeUtcnow true patched realNow offset = realNow ∧
       underlyingDatetimeNow true patched realNow offset -
           overlayDatetimeNow true patched realNow offset =
         (if patched then offset else 0)) ∧
      ∀ usesTime : Bool,
        virtualDatetimeNow usesTime patched realNow offset = realNow + offset ∧
        virtualDatetimeUtcnow usesTime patched realNow offset = realNow + offset := by
  intro patched realNow offset
  constructor
  · cases patched <;>
      simp [overlayDatetimeNow, overlayDatetimeUtcnow, underlyingDatetimeNow,
        underlyingDatetimeUtcnow]
  · intro usesTime
    cases usesTime <;> cases patched <;>
      simp [virtualDatetimeNow, virtualDatetimeUtcnow, overlayDatetimeNow,
        overlayDatetimeUtcnow, underlyingDatetimeNow, underlyingDatetimeUtcnow]

/-! ## C6 -/

/-- C6: every arithmetic/derived operation of the overlay calendrical type
yields an overlay-class instance — whatever runtime type the underlying base
operation returned (`uty`, `u1`, `u2`) — so `v + d`, `v - d`, `d + v`,
`combine(date, time)`, and, for overlay inputs, `astimezone` and `replace`
never downgrade to the plain base type; the round trips `v + d - d` and
`astimezone` there-and-back stay overlay and preserve the value. -/
theorem claim_C6_overlay_identity :
    ∀ (uty u1 u2 : DTTy) (v : DTv) (d z dateVal timeVal newVal : ℚ),
      (isOverlayInstance (dtAdd uty v d).ty = true ∧
       isOverlayInstance (dtSub uty v d).ty = true ∧
       isOverlayInstance (dtRAdd uty d v).ty = true ∧
       isOverlayInstance (dtCombine uty dateVal timeVal).ty = true) ∧
      ((dtSub u2 (dtAdd u1 v d) d).val = v.val ∧
       isOverlayInstance (dtSub u2 (dtAdd u1 v d) d).ty = true) ∧
      (isOverlayInstance v.ty = true →
        isOverlayInstance (dtAstimezone v z).ty = true ∧
        isOverlayInstance (dtReplace v newVal).ty = true ∧
        (dtAstimezone (dtAstimezone v z) (-z)).val = v.val ∧
        isOverlayInstance (dtAstimezone (dtAstimezone v z) (-z)).ty = true) := by
  intro uty u1 u2 v d z dateVal timeVal newVal
  refine ⟨⟨isOverlayInstance_dtWrap _, isOverlayInstance_dtWrap _,
      isOverlayInstance_dtWrap _, isOverlayInstance_dtWrap _⟩, ⟨?_, ?_⟩, fun h => ?_⟩
  · simp [dtSub, dtAdd, dtWrap]
    cases u1 <;> cases u2 <;> simp [isOverlayInstance]
  · exact isOverlayInstance_dtWrap _
  · refine ⟨?_, ?_, ?_, ?_⟩ <;> simp [dtAstimezone, dtReplace, h]

/-- Witness for C6 at a concrete overlay value. -/
theorem claim_C6_overlay_identity_witness :
    isOverlayInstance (dtAstimezone ⟨0, .overlay⟩ 3600).ty = true :=
  ((claim_C6_overlay_identity .base .base .base ⟨0, .overlay⟩ 1 3600 2 3 4).2.2 rfl).1

/-! ## C7 -/

/-- C7 counterexample: the applied step size does *not* always match
`delta`'s sign.  For `delta = 1` with caller-supplied `step_size = -1` the
applied step stays `-1` (opposite sign); for `delta = -2` with
`step_size = -1` the applied step becomes `+1` (opposite sign). -/
theorem claim_C7_counterexample :
    (0 : ℚ) < 1 ∧ normStep 1 (-1) < 0 ∧ (-2 : ℚ) < 0 ∧ 0 < normStep (-2) (-1) := by
  norm_num [normStep]

/-- C7 (amended): the code negates `step_size` exactly when `delta < 0`, so
the applied step matches `delta`'s direction only for a positive
caller-supplied `step_size`; in that case every intermediate offset of
`fast_forward_time` lies between the starting offset and the target. -/
theorem claim_C7_sign_amended :
    ∀ (delta step : ℚ), 0 < step →
      ((0 < delta → 0 < normStep delta step) ∧
       (delta < 0 → normStep delta step < 0)) ∧
      ∀ (orig x : ℚ), x ∈ ffOffsets orig delta step →
        min orig (orig + delta) ≤ x ∧ x ≤ max orig (orig + delta) := by
  intro delta step hstep
  constructor
  · constructor
    · intro hd
      simp only [normStep, if_neg (not_lt.2 hd.le)]
      exact hstep
    · intro hd
      simp only [normStep, if_pos hd]
      linarith
  · intro orig x hx
    exact ffOffsets_mem_between hstep hx

/-- Witness for C7 (amended) at `delta = -3`, `step = 2` (step applied as
`-2`) and at a concrete intermediate offset. -/
theorem claim_C7_sign_amended_witness :
    normStep (-3) 2 < 0 ∧
      (min 10 (10 + (-3) : ℚ) ≤ 8 ∧ (8 : ℚ) ≤ max 10 (10 + (-3))) := by
  have h := claim_C7_sign_amended (-3) 2 (by norm_num)
  refine ⟨h.1.2 (by norm_num), h.2 10 8 ?_⟩
  norm_num [ffOffsets, ffSteps, ffPart, normStep, List.range_succ]

/-! ## C2 -/

/-- C2: from offset 0, `fast_forward_time(delta=1)` then
`fast_forward_time(delta=2.5)` with step size 1.0 installs exactly the
offsets `[1, 2, 3, 3.5]`; in general, for positive `delta` and `step_size`,
the stepper applies `floor(delta/step_size)` full steps of size `step_size`
from the starting offset and, when the floor-division remainder is nonzero,
one final partial step landing exactly on `originalOffset + delta`. -/
theorem claim_C2_fast_forward_sequence :
    (ffOffsets 0 1 1 ++ ffOffsets 1 (5 / 2) 1 = [1, 2, 3, 7 / 2]) ∧
    ∀ (orig delta step : ℚ), 0 < delta → 0 < step →
      ((ffOffsets orig delta step).length
          = (ffSteps delta step).toNat + (if ffPart delta step ≠ 0 then 1 else 0)) ∧
      (∀ i : ℕ, i < (ffSteps delta step).toNat →
        (ffOffsets orig delta step)[i]? = some (orig + ((i : ℚ) + 1) * step)) ∧
      (ffPart delta step ≠ 0 →
        (ffOffsets orig delta step).getLast? = some (orig + delta)) := by
  constructor
  · norm_num [ffOffsets, ffSteps, ffPart, normStep, List.range_succ]
    norm_num [show Int.toNat 2 = 2 from rfl, List.range_succ]
  · intro orig delta step hd hs
    have hns : normStep delta step = step := by
      simp only [normStep, if_neg (not_lt.2 hd.le)]
    refine ⟨?_, ?_, ?_⟩
    · simp only [ffOffsets, List.length_append, List.length_map, List.length_range]
      split <;> simp
    · intro i hi
      rw [ffOffsets, List.getElem?_append_left (by simpa using hi)]
      simp [hns, hi]
    · intro hp
      rw [ffOffsets, if_pos hp, List.getLast?_concat]

/-- Witness for C2 at `delta = 5/2`, `step = 1`: two full steps then the
final partial step to `1 + 5/2`. -/
theorem claim_C2_fast_forward_sequence_witness :
    (ffOffsets 1 (5 / 2) 1)[0]? = some (1 + ((0 : ℚ) + 1) * 1) ∧
      (ffOffsets 1 (5 / 2) 1).getLast? = some (1 + 5 / 2) := by
  have h := claim_C2_fast_forward_sequence.2 1 (5 / 2) 1 (by norm_num) (by norm_num)
  refine ⟨h.2.1 0 ?_, h.2.2 ?_⟩
  · norm_num [ffSteps, normStep]
  · norm_num [ffPart, ffSteps, normStep]

/-! ## C3 -/

/-- C3 counterexample: with one entry point bound to an unexpected function
and another still original, `enabled()` raises the "inconsistent state"
error, not the "unexpected bindings" error the claim requires for *any*
unexpected binding (the `len(combined_results) > 1` check fires first). -/
theorem claim_C3_counterexample :
    classify ⟨2, 0, 1⟩ = .unexpected ∧
      enabled [] [⟨2, 0, 1⟩, ⟨0, 0, 1⟩] = .error .inconsistentState ∧
      VTError.inconsistentState ≠ VTError.unexpectedFunctions := by
  refine ⟨rfl, rfl, by simp⟩

/-- C3 (amended): `enabled()` classifies each entry point as real, virtual
or unexpected; returns false when all are real, true when all are virtual,
raises the "unexpected bindings" error when *all* entry points are bound to
neither known implementation, and raises the "inconsistent state" error
whenever any two entry points classify differently — including when
unexpected bindings coexist with real or virtual ones. -/
theorem claim_C3_enabled_amended :
    ∀ (constants : List (ℕ × ℕ)) (entries : List EntryPoint),
      (∀ c ∈ constants, c.1 = c.2) → entries ≠ [] →
      ((∀ e ∈ entries, classify e = .orig) → enabled constants entries = .ok false) ∧
      ((∀ e ∈ entries, classify e = .virt) → enabled constants entries = .ok true) ∧
      ((∀ e ∈ entries, classify e = .unexpected) →
        enabled constants entries = .error .unexpectedFunctions) ∧
      (∀ e1 ∈ entries, ∀ e2 ∈ entries, classify e1 ≠ classify e2 →
        enabled constants entries = .error .inconsistentState) := by
  intro constants entries hconst hne
  have hany : constants.any (fun c => c.1 != c.2) = false := by
    rw [List.any_eq_false]
    intro c hc
    simp [hconst c hc]
  have hmapne : entries.map classify ≠ [] := by
    simpa using hne
  have hall : ∀ b, (∀ e ∈ entries, classify e = b) →
      (entries.map classify).dedup = [b] := by
    intro b hb
    refine dedup_eq_singleton _ hmapne ?_
    intro x hx
    obtain ⟨e, he, rfl⟩ := List.mem_map.1 hx
    exact hb e he
  refine ⟨fun h => ?_, fun h => ?_, fun h => ?_, fun e1 h1 e2 h2 hne12 => ?_⟩
  · simp [enabled, hany, hall _ h]
  · simp [enabled, hany, hall _ h]
  · simp [enabled, hany, hall _ h]
  · have hlen : 1 < (entries.map classify).dedup.length :=
      one_lt_dedup_length (List.mem_map_of_mem _ h1) (List.mem_map_of_mem _ h2) hne12
    simp [enabled, hany, hlen]

/-- Witness for C3 (amended): all-original entries give `ok false`,
all-virtual give `ok true`, under intact constants. -/
theorem claim_C3_enabled_amended_witness :
    enabled [(7, 7)] [⟨0, 0, 1⟩] = .ok false ∧
      enabled [(7, 7)] [⟨1, 0, 1⟩] = .ok true := by
  constructor
  · exact (claim_C3_enabled_amended [(7, 7)] [⟨0, 0, 1⟩] (by simp) (by simp)).1
      (by intro e he; simp at he; subst he; rfl)
  · exact (claim_C3_enabled_amended [(7, 7)] [⟨1, 0, 1⟩] (by simp) (by simp)).2.1
      (by intro e he; simp at he; subst he; rfl)

/-! ## C8 -/

/-- C8: `_virtual_sleep(seconds)` computes `expected_end` as virtual-now
plus `seconds` at entry and (a) returns only at an observation of virtual
time at which `expected_end − virtual_now ≤ 0`, never having had
`expected_end − virtual_now > 0` at the return point, and having observed
only positive remaining time earlier; (b) as soon as any observation
satisfies virtual-now ≥ `expected_end` (e.g. because `set_offset`/
`set_time`/fast-forward advanced the offset), the loop has returned at that
observation or an earlier one — it does not wait out the originally
requested duration. -/
theorem claim_C8_virtual_sleep :
    ∀ (seconds vt0 : ℚ) (obs : List ℚ),
      (∀ i : ℕ, virtualSleep seconds vt0 obs = some i →
        (∃ v, obs[i]? = some v ∧ vt0 + seconds ≤ v) ∧
        ∀ j : ℕ, j < i → ∀ v, obs[j]? = some v → 0 < (vt0 + seconds) - v) ∧
      (∀ (i : ℕ) (v : ℚ), obs[i]? = some v → vt0 + seconds ≤ v →
        ∃ j, j ≤ i ∧ virtualSleep seconds vt0 obs = some j) := by
  intro seconds vt0 obs
  exact virtualSleepLoop_spec (vt0 + seconds) obs

/-- Witness for C8: sleeping 2 virtual seconds from virtual time 0, with
observations `[1, 3]`, the sleeper has returned by the observation `3`. -/
theorem claim_C8_virtual_sleep_witness :
    ∃ j, j ≤ 1 ∧ virtualSleep 2 0 [1, 3] = some j :=
  (claim_C8_virtual_sleep 2 0 [1, 3]).2 1 3 (by rfl) (by norm_num)

/-! ## C9 -/

/-- C9: the right-to-left positional substitution of `adjust_strftime`
equals the directive-by-directive substitution `adjustSpec` — every `%f`
becomes the 6-digit zero-padded microsecond, every `%z` the `±HHMM` UTC
offset (empty when the tzinfo is absent or its offset unavailable or
not-implemented), every `%Z` the timezone name (empty when no tzinfo), and
every other directive is left unchanged; in particular microsecond `123456`
with format `"%f"` yields `"123456"`, and a `+02:00` offset timezone with
format `"%z"` yields `"+0200"`. -/
theorem claim_C9_adjust_strftime :
    (∀ (dt : AltDT) (fmt : List Char), adjust_strftime dt fmt = adjustSpec dt fmt) ∧
    (∀ (dt : AltDT) (c : Char), replToken dt c = none →
      adjust_strftime dt ['%', c] = ['%', c]) ∧
    adjust_strftime ⟨123456, none⟩ "%f".toList = "123456".toList ∧
    adjust_strftime ⟨0, some ⟨some 7200, "CEST"⟩⟩ "%z".toList = "+0200".toList := by
  refine ⟨fun dt fmt => adjust_eq_adjustSpec dt fmt, fun dt c h => ?_, by decide, by decide⟩
  rw [adjust_eq_adjustSpec]
  by_cases hc : c = '\n'
  · subst hc
    rfl
  · rw [adjustSpec_pct dt c hc, h]
    rfl

/-- Witness for C9: the `%Y` directive (not one of `%f`/`%z`/`%Z`) is left
unchanged. -/
theorem claim_C9_adjust_strftime_witness :
    adjust_strftime ⟨0, none⟩ ['%', 'Y'] = ['%', 'Y'] :=
  claim_C9_adjust_strftime.2.1 ⟨0, none⟩ 'Y' rfl

/-! ## C10 -/

/-- C10: the non-overlapping left-to-right scan of `%.` consumes the escaped
percent `"%%"` as one complete two-character match, so in `"%%f"` the `f`
after it is not a `%f` directive: the only match is `%%` at position 0,
no substitution applies, and the string is returned unchanged for every
input value. -/
theorem claim_C10_escaped_percent :
    (∀ dt : AltDT, adjust_strftime dt "%%f".toList = "%%f".toList) ∧
    formatMatches 0 "%%f".toList = [(0, '%')] := by
  constructor
  · intro dt
    rw [adjust_eq_adjustSpec]
    rfl
  · rfl

end VirtualTime
